import Mathlib

/- Verification development for the lmserv process-worker pool.

   Shallow embedding of the core of the repository:
   - `lmserv/gbnf.py`                (JSON-Schema → GBNF compiler)
   - `lmserv/server/workers/utils.py` (`_stream_reader`)
   - `lmserv/server/workers/llama.py` (`LlamaWorker`: spawn/_wait_ready/infer/stop)
   - `lmserv/server/pool.py`          (`WorkerPool`: start/acquire/release/shutdown)

   Machine-level effects (actual OS processes, threads, the asyncio loop) are
   modelled by explicit parameters: stream contents become lists of read
   results, signal/wait outcomes become outcome parameters drawn from the
   exception types the code can see at each call site, and the pool's
   concurrent environment becomes an explicit operation sequence. -/

namespace LmServ

/- ──────────────────────────────────────────────────────────────────────
   Part 1: lmserv/gbnf.py
   `_convert_schema` reads exactly the keys "type", "properties",
   "required", "enum", "oneOf" and "$ref" of a schema node, so a
   JSON-Schema-like tree is embedded as a node carrying those six fields
   ("enum" with the string values the repository uses).  An `Option` field
   models presence of the key in the dict.
   ────────────────────────────────────────────────────────────────────── -/

inductive SchemaV : Type where
  | mk (type : Option String) (properties : List (String × SchemaV))
       (required : List String) (enum : Option (List String))
       (oneOf : Option (List SchemaV)) (ref : Option String)

/-- The mapping `rules` of gbnf.py: name → right-hand side, insertion
ordered. -/
abbrev Rules := List (String × String)

/-- `name in rules` of gbnf.py. -/
def rulesContains (rules : Rules) (name : String) : Bool :=
  rules.any (fun r => r.1 == name)

/-- `rules[name]` read access. -/
def rulesLookup (rules : Rules) (name : String) : Option String :=
  (rules.find? (fun r => r.1 == name)).map (fun r => r.2)

/-- `rules[name] = v`: replace in place if the key exists, else append
(Python dict assignment). -/
def rulesSet (rules : Rules) (name v : String) : Rules :=
  if rules.any (fun r => r.1 == name) then
    rules.map (fun r => if r.1 == name then (name, v) else r)
  else
    rules ++ [(name, v)]

mutual

/-- `_convert_schema(name, schema, rules)` of gbnf.py, branch for branch:
dispatch on `schema.get("type")` for object/string/number/boolean, then on
presence of "oneOf", then "$ref", else the `null` fallback. -/
def _convert_schema (name : String) (s : SchemaV) (rules : Rules) : Rules :=
  if rulesContains rules name then rules else
  match s with
  | .mk type props _required enum oneOf ref =>
    if type == some "object" then
      let pr := _convert_props name props rules
      rulesSet pr.1 name
        ("\"\x7b\"" ++ " ( " ++ String.intercalate " \",\" " pr.2 ++ " )? " ++ "\"\x7d\"")
    else if type == some "string" then
      match enum with
      | some vals =>
          rulesSet rules name
            (String.intercalate " | " (vals.map (fun v => "\"\\\"" ++ v ++ "\\\"\"")))
      | none =>
          rulesSet rules name "\"\\\"\" ([-a-zA-Z0-9_ ,./]*) \"\\\"\""
    else if type == some "number" then
      rulesSet rules name "(\"-\"? ([0-9] | [1-9] [0-9]*)) (\".\" [0-9]+)? ([eE] [-+]? [0-9]+)?"
    else if type == some "boolean" then
      rulesSet rules name "(\"true\" | \"false\")"
    else
      match oneOf with
      | some branches =>
        let ob := _convert_oneof name 0 branches rules
        rulesSet ob.1 name (String.intercalate " | " ob.2)
      | none =>
        match ref with
        | some r => rulesSet rules name ((r.splitOn "/").getLastD r)
        | none => rulesSet rules name "null"

/-- The `for prop_name, prop_schema in properties.items()` loop of the
object branch: threads `rules` and collects the key-value rule texts. -/
def _convert_props (parent : String) (props : List (String × SchemaV))
    (rules : Rules) : Rules × List String :=
  match props with
  | [] => (rules, [])
  | (pname, pschema) :: rest =>
    let prn := parent ++ "-" ++ pname
    let rules1 := _convert_schema prn pschema rules
    let kv := "\"\\\"" ++ pname ++ "\\\"\" \":\" " ++ prn
    let pr := _convert_props parent rest rules1
    (pr.1, kv :: pr.2)

/-- The `for i, sub_schema in enumerate(schema["oneOf"])` loop. -/
def _convert_oneof (parent : String) (i : Nat) (bs : List SchemaV)
    (rules : Rules) : Rules × List String :=
  match bs with
  | [] => (rules, [])
  | b :: rest =>
    let srn := parent ++ "-oneof-" ++ toString i
    let rules1 := _convert_schema srn b rules
    let ob := _convert_oneof parent (i + 1) rest rules1
    (ob.1, srn :: ob.2)

end

/-- `schema_to_gbnf(schema)` of gbnf.py: convert under the rule name
"root" and print every rule as `name ::= rhs\n` in insertion order. -/
def schema_to_gbnf (schema : SchemaV) : String :=
  let rules := _convert_schema "root" schema []
  String.join (rules.map (fun r => r.1 ++ " ::= " ++ r.2 ++ "\n"))

/-- A schema node matching none of the handled shapes: its "type" is not
one of object/string/number/boolean and it has neither "oneOf" nor
"$ref". -/
def unhandledSchema : SchemaV → Bool
  | .mk type _ _ _ oneOf ref =>
    !(type == some "object" || type == some "string" ||
      type == some "number" || type == some "boolean") &&
    oneOf.isNone && ref.isNone

/-- The schema of the spec's grammar test case:
`\x7b"type": "string", "enum": ["a", "b"]\x7d`. -/
def enumABSchema : SchemaV := .mk (some "string") [] [] (some ["a", "b"]) none none

/- ──────────────────────────────────────────────────────────────────────
   Part 2: lmserv/server/workers/utils.py, `_stream_reader`.

   One run of the coroutine is determined by: the successive results of
   `stream.readline()` that the loop performed (`reads`; the empty string
   is how an exhausted stream reports EOF, exactly as in the code's
   `if not line` test), how the run ended when those reads were used up
   (`ReadEnding`), and — because the shared `proc_control_event` can be
   set concurrently by `stop()` or the sibling reader between the loop's
   check and the failing read — whether that event was already set when
   an exception was caught (`ctlAtError`, read by the code's
   `if not proc_control_event.is_set()` guard inside `except`).
   The returned Bool is the state of the control event after `finally`.
   ────────────────────────────────────────────────────────────────────── -/

/-- How a reader run terminates once `reads` is exhausted. -/
inductive ReadEnding : Type where
  | stopObserved              -- the `while not proc_control_event.is_set()` check saw the event set
  | errorRaised (msg : String) -- `readline` (or `queue.put`) raised; msg renders `repr(exc)`
deriving DecidableEq

/-- Python `line.rstrip("\n")`: drop every trailing newline character. -/
def rstripNl (s : String) : String :=
  ⟨(s.toList.reverse.dropWhile (fun c => c == '\n')).reverse⟩

/-- The queue items `(stream_name, line | None | error marker)` produced by
one `_stream_reader` run, line for line from utils.py. -/
def readerEvents (stream_name : String) :
    List String → ReadEnding → Bool → List (String × Option String)
  | [], .stopObserved, _ => []
  | [], .errorRaised m, ctlAtError =>
    if ctlAtError then [] else [(stream_name, some ("ERROR_READER: " ++ m))]
  | l :: rest, ending, ctlAtError =>
    if l == "" then [(stream_name, none)]
    else (stream_name, some (rstripNl l)) :: readerEvents stream_name rest ending ctlAtError

/-- `_stream_reader`: the enqueued events together with the state of the
shared control event after the `finally` block (always set). -/
def _stream_reader (stream_name : String) (reads : List String)
    (ending : ReadEnding) (ctlAtError : Bool) :
    List (String × Option String) × Bool :=
  (readerEvents stream_name reads ending ctlAtError, true)

/- ──────────────────────────────────────────────────────────────────────
   Part 3: lmserv/server/workers/llama.py, `LlamaWorker`.

   A worker is embedded by the fields its methods read and write:
   `proc` is `none` when `self.proc is None`, `some none` when the process
   exists and `poll()` returns None (still running), and `some (some rc)`
   when `poll()` returns exit code rc; `ctl` is the `_ctl_event`
   (`proc_control_event` on the pool side and in the test double —
   the same control signal under two names).
   ────────────────────────────────────────────────────────────────────── -/

def READY_MARKERS : List String :=
  ["== Running in interactive mode. ==",
   "interactive mode",
   "Reverse prompt:",
   "sampling:"]

def REVERSE_PROMPT : String := "<|LMSERV_USER_INPUT_START|>"

/-- Python `needle in hay` on strings (substring test). -/
def substrB (needle hay : String) : Bool :=
  decide (needle.toList <:+: hay.toList)

/-- `any(marker in line for marker in READY_MARKERS)`. -/
def containsMarker (line : String) : Bool :=
  READY_MARKERS.any (fun m => substrB m line)

structure LlamaWorkerM : Type where
  id : String
  proc : Option (Option Int)
  ctl : Bool
  systemPrompt : String
deriving DecidableEq

/-- Exceptions the `try` around `send_signal(SIGINT/CTRL_C_EVENT)` +
`wait(timeout=5)` can see, exactly the tuple the code catches:
`(subprocess.TimeoutExpired, ProcessLookupError, ValueError)`. -/
inductive InterruptOutcome : Type where
  | ok | timeoutExpired | processLookupError | valueError
deriving DecidableEq

/-- Exceptions the `terminate()` + `wait(timeout=3)` step can see, exactly
the tuple the code catches: `(subprocess.TimeoutExpired,
ProcessLookupError)`.  The final `kill()` + unbounded `wait()` completes. -/
inductive TerminateOutcome : Type where
  | ok | timeoutExpired | processLookupError
deriving DecidableEq

/-- The log records `stop()` can emit.  `escalationFailure` exists so the
log can be inspected for a record of a failed escalation step; the
embedded code never produces it, because the `except` arms of stop()
contain no logging call. -/
inductive StopLogEvent : Type where
  | procStopped (wid : String)        -- logger.info("[%s] proceso %s detenido …")
  | escalationFailure (wid : String)  -- no corresponding call exists in stop()
deriving DecidableEq

/-- `LlamaWorker.stop()`: early return when `self.proc` is already None;
otherwise set the control event, cancel the reader tasks, escalate
interrupt → terminate → kill (each failure silently caught), log the
"proceso detenido" info line and clear `self.proc`. -/
def LlamaWorkerM.stop (w : LlamaWorkerM) (o1 : InterruptOutcome)
    (o2 : TerminateOutcome) : LlamaWorkerM × List StopLogEvent :=
  match w.proc with
  | none => (w, [])
  | some _ =>
    let w1 : LlamaWorkerM := { w with ctl := true }
    let escalationLogs : List StopLogEvent :=
      match o1 with
      | .ok => []                    -- graceful interrupt worked
      | _ =>                         -- caught silently, escalate to terminate
        match o2 with
        | .ok => []                  -- terminate worked
        | _ => []                    -- caught silently, kill() + wait()
    ({ w1 with proc := none }, escalationLogs ++ [.procStopped w.id])

/-- Python `str.strip()` (no argument): remove leading and trailing
whitespace. -/
def pyStrip (s : String) : String :=
  ⟨(((s.toList.dropWhile Char.isWhitespace).reverse).dropWhile Char.isWhitespace).reverse⟩

/-- Python `s.startswith(p)`, character by character. -/
def pyStartsWith (s p : String) : Bool :=
  go s.toList p.toList
where
  go : List Char → List Char → Bool
  | _, [] => true
  | [], _ :: _ => false
  | c :: cs, d :: ds => c == d && go cs ds

/-- The `while True` body of `infer()`'s generator, over the events that
arrive on the queue during the turn (the stale queue was drained before
the prompt was written).  An exhausted event list is the 2-second
`asyncio.TimeoutError` ⇒ `break`.  Returns the yielded fragments and the
events left unread on the queue. -/
def inferLoop (prompt : String) :
    Bool → List (String × Option String) → List String × List (String × Option String)
  | _, [] => ([], [])
  | first_token, (stream, line) :: rest =>
    match line with
    | none => ([], rest)
    | some l =>
      if pyStartsWith l "ERROR_READER" then ([], rest)
      else if stream == "stderr" then inferLoop prompt first_token rest
      else if first_token && (pyStrip l == pyStrip prompt) then inferLoop prompt first_token rest
      else if pyStrip l == REVERSE_PROMPT then ([], rest)
      else
        let r := inferLoop prompt false rest
        (l :: r.1, r.2)

/-- What one `infer()` call produced when it did not raise. -/
structure InferResult : Type where
  written : String               -- the single write to proc.stdin (then flushed)
  fragments : List String        -- the yielded lines, in order
  worker : LlamaWorkerM          -- worker state after the `finally` block
deriving DecidableEq

/-- `LlamaWorker.infer(prompt)`: raise "worker no operativo" unless
`self.proc` exists and `poll()` is None; otherwise clear `_ctl_event`,
drain the stale queue, write `f"{system_prompt}\n\nUser: {prompt.strip()}"`
plus `os.linesep` to stdin, flush, and stream the turn; the `finally`
block sets `_ctl_event`. -/
def LlamaWorkerM.infer (w : LlamaWorkerM) (prompt : String)
    (incoming : List (String × Option String)) (linesep : String) :
    Except String InferResult :=
  match w.proc with
  | some none =>
    let full_prompt := w.systemPrompt ++ "\n\nUser: " ++ pyStrip prompt
    let r := inferLoop prompt true incoming
    .ok ⟨full_prompt ++ linesep, r.1, { w with ctl := true }⟩
  | _ => .error ("[" ++ w.id ++ "] worker no operativo")

/-- Bool view of an `Except` being a success. -/
def exceptOk : Except String InferResult → Bool
  | .ok _ => true
  | .error _ => false

/-- How `_wait_ready()` ends when the process stays alive throughout
(`poll()` returns None at every loop head): read `(_, line)` pairs —
the stream tag is discarded by `_, line = await self._queue.get()` —
until a line containing a ready marker returns, a `None` line raises
"finalizó prematuramente", or the model's event list runs dry while the
coroutine is still waiting on the queue. -/
inductive WaitReadyOutcome : Type where
  | ready
  | eofFail       -- RuntimeError "llama-cli finalizó prematuramente"
  | blocked       -- still suspended in `await self._queue.get()`
deriving DecidableEq

def _wait_ready_alive : List (String × Option String) → WaitReadyOutcome
  | [] => .blocked
  | (_, none) :: _ => .eofFail
  | (_, some l) :: rest =>
    if containsMarker l then .ready else _wait_ready_alive rest

/-- The `for _ in range(200)` drain of `_wait_ready`'s premature-exit arm:
keep `line.strip()` of up to 200 queue entries whose stream is "stderr"
and whose line is neither None nor empty. -/
def drainErrTail : Nat → List (String × Option String) → List String
  | 0, _ => []
  | _, [] => []
  | Nat.succ k, (stream, line) :: rest =>
    match line with
    | some l =>
      if stream == "stderr" && !(l == "") then pyStrip l :: drainErrTail k rest
      else drainErrTail k rest
    | none => drainErrTail k rest

/-- Python `l[-n:]`. -/
def lastN (n : Nat) (l : List String) : List String := l.drop (l.length - n)

/-- The RuntimeError message `_wait_ready` raises when `poll()` reports
the process exited with code rc while the queue holds `events`. -/
def prematureMsg (wid : String) (rc : Int) (events : List (String × Option String)) :
    String :=
  let err_tail := drainErrTail 200 events
  let msg := if err_tail.isEmpty then "(sin stderr)"
             else String.intercalate "\n" (lastN 40 err_tail)
  "[" ++ wid ++ "] llama-cli terminó prematuramente (rc=" ++ toString rc ++ ").\n" ++ msg

/- ──────────────────────────────────────────────────────────────────────
   Part 4: lmserv/server/pool.py, `WorkerPool`.

   Workers are identified by Nat ids standing for object identity
   (`LlamaWorker` instances); `ws` maps each id to the fields `release()`
   touches: the worker's control event (`_ctl_event` on `LlamaWorker`),
   `proc`/`poll()` encoded as in `LlamaWorkerM.proc`, and whether the
   object exposes an attribute named `proc_control_event`.  The last
   field matters because pool.py line 111 reads
   `w.proc_control_event.is_set()`, but the `LlamaWorker` class the pool
   constructs (pool.py lines 49 and 119 import it from workers/llama.py)
   defines only `_ctl_event` — no `proc_control_event` — so on every
   worker the pool builds that attribute read raises `AttributeError`
   before anything else in `release()` runs.  Only the test suite's
   worker double (tests/conftest.py) defines the attribute; nothing in
   src/ gives a `LlamaWorker` that name.
   `free` is the FIFO `asyncio.Queue` (head = next item out), `busy` the
   Python set, `workers` the `_workers` list.  `nextId` supplies the
   identity of a replacement built by `LlamaWorker(self._cfg)`.
   ────────────────────────────────────────────────────────────────────── -/

structure WStatus : Type where
  ctl : Bool                      -- the worker's control event (`_ctl_event`)
  proc : Option (Option Int)
  hasProcControlEventAttr : Bool  -- does the object define `proc_control_event`?
deriving DecidableEq

structure Pool : Type where
  workers : List Nat
  free : List Nat
  busy : List Nat
  ws : Nat → WStatus
  nextId : Nat
  started : Bool

/-- The message of the exception `w.proc_control_event` raises on a
`LlamaWorker` (which defines `_ctl_event` but no `proc_control_event`). -/
def attrErrMsg : String :=
  "AttributeError: LlamaWorker object has no attribute proc_control_event"

/-- The attribute read `w.proc_control_event` that starts pool.py line
111: it yields the event's state only on an object that defines the
attribute, and raises `AttributeError` otherwise — which is the case for
every `LlamaWorker` the pool constructs. -/
def getattrProcControlEvent (st : WStatus) : Except String Bool :=
  if st.hasProcControlEventAttr then .ok st.ctl else .error attrErrMsg

/-- The rest of the pool.py line 111 condition, given the value the
attribute read produced:
`<ctl> or w.proc is None or w.proc.poll() is not None`. -/
def unhealthyB (ctl : Bool) (proc : Option (Option Int)) : Bool :=
  ctl ||
  (match proc with
   | none => true          -- w.proc is None
   | some none => false    -- poll() is None: still running
   | some (some _) => true)  -- poll() is not None: exited

/-- Point update of the worker-status table. -/
def wsUpdate (ws : Nat → WStatus) (w : Nat) (f : WStatus → WStatus) : Nat → WStatus :=
  fun v => if v = w then f (ws v) else ws v

/-- Python `set.add`. -/
def setAdd (l : List Nat) (w : Nat) : List Nat :=
  if w ∈ l then l else l ++ [w]

/-- The pool as `start()` leaves it: every configured worker spawned
(running, control event clear, and — being a `LlamaWorker` — without a
`proc_control_event` attribute) and enqueued on `free`; `busy` empty. -/
def startPool (n : Nat) : Pool :=
  { workers := List.range n
    free := List.range n
    busy := []
    ws := fun v => if v < n then ⟨false, some none, false⟩ else ⟨false, none, false⟩
    nextId := n
    started := true }

/-- `WorkerPool.acquire()`: `await self.free.get()` then `self.busy.add(w)`.
`none` models the caller still blocked on an empty queue. -/
def acquire (p : Pool) : Option (Nat × Pool) :=
  match p.free with
  | [] => none
  | w :: rest => some (w, { p with free := rest, busy := setAdd p.busy w })

/-- The body of `WorkerPool.release(w)` from the health condition onward,
line for line, given the value `ctl` the attribute read produced: when
the unstable condition holds, `await w.stop()` (control event set, proc
cleared), build and spawn a replacement — another `LlamaWorker`, again
without the attribute — and rebind the local `w` to it; then
`if w in self.busy: self.busy.remove(w)` — on the rebound local — and
`await self.free.put(w)`. -/
def releaseBody (p : Pool) (w : Nat) (ctl : Bool) : Pool :=
  if unhealthyB ctl (p.ws w).proc then
    let ws1 := wsUpdate p.ws w
      (fun st => { st with ctl := true, proc := none })        -- await w.stop()
    let nid := p.nextId
    let ws2 := wsUpdate ws1 nid
      (fun _ => ⟨false, some none, false⟩)  -- LlamaWorker(cfg); await new_w.spawn()
    let p1 : Pool := { p with ws := ws2, nextId := nid + 1 }
    let w' := nid                                              -- w = new_w
    let busy1 := if w' ∈ p1.busy then p1.busy.erase w' else p1.busy
    { p1 with busy := busy1, free := p1.free ++ [w'] }
  else
    let busy1 := if w ∈ p.busy then p.busy.erase w else p.busy
    { p with busy := busy1, free := p.free ++ [w] }

/-- `WorkerPool.release(w)` as the composed program runs it: the first
expression evaluated is the attribute read `w.proc_control_event`, so on
every worker the pool constructs the call raises `AttributeError` here
and none of `releaseBody` runs. -/
def release (p : Pool) (w : Nat) : Except String Pool :=
  match getattrProcControlEvent (p.ws w) with
  | .error e => .error e
  | .ok ctl => .ok (releaseBody p w ctl)

/-- The pool state after a `release()` call finishes, normally or by
exception: an exception propagates to the caller before any mutation, so
the pool object is left exactly as it was. -/
def releasePost (p : Pool) (w : Nat) : Pool :=
  match release p w with
  | .ok q => q
  | .error _ => p

/-- `WorkerPool.shutdown()`: stop every worker still on `_workers`, clear
`_workers`, drain `free`, clear `busy`.  The second component is the list
of workers the `asyncio.gather(*[w.stop() ...])` iterated. -/
def shutdown (p : Pool) : Pool × List Nat :=
  ({ workers := []
     free := []
     busy := []
     ws := p.workers.foldl
       (fun a w => wsUpdate a w (fun st => { st with ctl := true, proc := none })) p.ws
     nextId := p.nextId
     started := false },
   p.workers)

/-- One observable event at the pool's interface: an `acquire()` call, a
`release(w)` call by the caller currently holding w (leaving the pool in
`releasePost p w`, whether the call returned or raised), or an
environment event on a worker (its control event becomes set; its
process exits). -/
inductive PoolOp : Type where
  | acq
  | rel (w : Nat)
  | ctlSet (w : Nat)
  | procExit (w : Nat) (rc : Int)
deriving DecidableEq

def applyOp (p : Pool) : PoolOp → Option Pool
  | .acq =>
    match acquire p with
    | none => none
    | some wq => some wq.2
  | .rel w => if w ∈ p.busy then some (releasePost p w) else none
  | .ctlSet w => some { p with ws := wsUpdate p.ws w (fun st => { st with ctl := true }) }
  | .procExit w rc =>
    some { p with ws := wsUpdate p.ws w (fun st => { st with proc := st.proc.map (fun _ => some rc) }) }

def applyOps (p : Pool) : List PoolOp → Option Pool
  | [] => some p
  | op :: rest =>
    match applyOp p op with
    | none => none
    | some q => applyOps q rest

/-- The well-formedness of the pool that every reachable state enjoys:
no duplicates, `free` and `busy` share no worker and together hold
exactly `|_workers|` workers, every id in the containers was handed out
before `nextId`, and every worker object the pool knows is a
`LlamaWorker` — none exposes a `proc_control_event` attribute. -/
structure PoolInv (p : Pool) : Prop where
  nodupFree : p.free.Nodup
  nodupBusy : p.busy.Nodup
  disj : ∀ i, i ∈ p.free → i ∉ p.busy
  fresh : ∀ i, i ∈ p.free ∨ i ∈ p.busy → i < p.nextId
  sumEq : p.free.length + p.busy.length = p.workers.length
  attrAbsent : ∀ i, (p.ws i).hasProcControlEventAttr = false

end LmServ

/- ──────────────────────────────────────────────────────────────────────
   Helper lemmas.
   ────────────────────────────────────────────────────────────────────── -/

namespace LmServ

theorem rulesContains_rulesSet_self (r : Rules) (n v : String) :
    rulesContains (rulesSet r n v) n = true := by
  unfold rulesContains rulesSet
  split
  · next hg =>
    simp only [List.any_eq_true] at hg ⊢
    obtain ⟨x, hx, hxn⟩ := hg
    refine ⟨(n, v), List.mem_map.2 ⟨x, hx, ?_⟩, by simp⟩
    simp [hxn]
  · simp

theorem rulesLookup_rulesSet_self (r : Rules) (n v : String) :
    rulesLookup (rulesSet r n v) n = some v := by
  induction r with
  | nil => simp [rulesSet, rulesLookup]
  | cons x xs ih =>
    by_cases hx : (x.1 == n) = true
    · have hx' : x.1 = n := by simpa using hx
      have hg : ((x :: xs).any fun r => r.1 == n) = true := by
        simp [List.any_cons, hx]
      unfold rulesSet
      rw [if_pos hg]
      unfold rulesLookup
      rw [List.map_cons, if_pos hx, List.find?]
      simp
    · have hx' : ¬ (x.1 = n) := by simpa using hx
      have hset : rulesSet (x :: xs) n v = x :: rulesSet xs n v := by
        simp only [rulesSet, List.any_cons, hx, Bool.false_or]
        by_cases ha : (xs.any fun r => r.1 == n) = true
        · simp [ha, hx']
        · simp [ha, hx']
      rw [hset]
      unfold rulesLookup at ih ⊢
      rw [List.find?]
      simp only [hx]
      exact ih

theorem releaseBody_eq_unhealthy (p : Pool) (w : Nat) (ctl : Bool)
    (hu : unhealthyB ctl (p.ws w).proc = true) :
    releaseBody p w ctl = { p with
      ws := wsUpdate (wsUpdate p.ws w (fun st => { st with ctl := true, proc := none }))
              p.nextId (fun _ => ⟨false, some none, false⟩)
      nextId := p.nextId + 1
      busy := if p.nextId ∈ p.busy then p.busy.erase p.nextId else p.busy
      free := p.free ++ [p.nextId] } := by
  unfold releaseBody
  simp [hu]

theorem releaseBody_eq_healthy (p : Pool) (w : Nat) (ctl : Bool)
    (hu : unhealthyB ctl (p.ws w).proc = false) :
    releaseBody p w ctl = { p with
      busy := if w ∈ p.busy then p.busy.erase w else p.busy
      free := p.free ++ [w] } := by
  unfold releaseBody
  simp [hu]

theorem releaseBody_workers (p : Pool) (w : Nat) (ctl : Bool) :
    (releaseBody p w ctl).workers = p.workers := by
  by_cases hu : unhealthyB ctl (p.ws w).proc = true
  · rw [releaseBody_eq_unhealthy p w ctl hu]
  · rw [releaseBody_eq_healthy p w ctl (by simpa using hu)]

theorem releasePost_workers (p : Pool) (w : Nat) :
    (releasePost p w).workers = p.workers := by
  unfold releasePost release
  cases hg : getattrProcControlEvent (p.ws w) with
  | error e => rfl
  | ok ctl => exact releaseBody_workers p w ctl

theorem applyOp_workers {p q : Pool} {op : PoolOp} (h : applyOp p op = some q) :
    q.workers = p.workers := by
  cases op with
  | acq =>
    simp only [applyOp] at h
    cases hf : p.free with
    | nil => simp [acquire, hf] at h
    | cons w rest =>
      simp [acquire, hf] at h
      subst h
      rfl
  | rel w =>
    simp only [applyOp] at h
    split at h
    · simp at h
      subst h
      exact releasePost_workers p w
    · simp at h
  | ctlSet w =>
    simp only [applyOp, Option.some.injEq] at h
    subst h
    rfl
  | procExit w rc =>
    simp only [applyOp, Option.some.injEq] at h
    subst h
    rfl

theorem applyOps_workers :
    ∀ (ops : List PoolOp) (p q : Pool), applyOps p ops = some q → q.workers = p.workers := by
  intro ops
  induction ops with
  | nil => intro p q h; simp [applyOps] at h; subst h; rfl
  | cons op rest ih =>
    intro p q h
    unfold applyOps at h
    cases ha : applyOp p op with
    | none => rw [ha] at h; simp at h
    | some r =>
      rw [ha] at h
      have h1 := ih r q h
      rw [h1, applyOp_workers ha]

theorem inv_startPool (n : Nat) : PoolInv (startPool n) := by
  refine ⟨?_, ?_, ?_, ?_, ?_, ?_⟩
  · show (List.range n).Nodup
    exact List.nodup_range n
  · show List.Nodup []
    exact List.nodup_nil
  · intro i _ hmem
    simp [startPool] at hmem
  · intro i hi
    rcases hi with hi | hi
    · simpa [startPool] using hi
    · simp [startPool] at hi
  · show (List.range n).length + ([] : List Nat).length = (List.range n).length
    simp
  · intro i
    show (if i < n then (⟨false, some none, false⟩ : WStatus)
          else ⟨false, none, false⟩).hasProcControlEventAttr = false
    split <;> rfl

theorem inv_applyOp {p q : Pool} {op : PoolOp} (hp : PoolInv p)
    (h : applyOp p op = some q) : PoolInv q := by
  cases op with
  | acq =>
    simp only [applyOp] at h
    cases hf : p.free with
    | nil => simp [acquire, hf] at h
    | cons w rest =>
      simp [acquire, hf] at h
      subst h
      have hwrest : w ∉ rest := by
        have h0 := hp.nodupFree
        rw [hf] at h0
        exact (List.nodup_cons.1 h0).1
      have hwbusy : w ∉ p.busy := hp.disj w (by rw [hf]; exact List.mem_cons_self w rest)
      have hadd : setAdd p.busy w = p.busy ++ [w] := by simp [setAdd, hwbusy]
      refine ⟨?_, ?_, ?_, ?_, ?_, ?_⟩
      · have h0 := hp.nodupFree
        rw [hf] at h0
        exact (List.nodup_cons.1 h0).2
      · show (setAdd p.busy w).Nodup
        rw [hadd, List.nodup_append]
        refine ⟨hp.nodupBusy, List.nodup_singleton w, ?_⟩
        intro a ha hb
        simp at hb
        subst hb
        exact hwbusy ha
      · intro i hi
        show i ∉ setAdd p.busy w
        rw [hadd]
        have hifree : i ∈ p.free := by rw [hf]; exact List.mem_cons_of_mem w hi
        intro hmem
        rcases List.mem_append.1 hmem with hb | hb
        · exact hp.disj i hifree hb
        · simp at hb
          subst hb
          exact hwrest hi
      · intro i hi
        rcases hi with hi | hi
        · exact hp.fresh i (Or.inl (by rw [hf]; exact List.mem_cons_of_mem w hi))
        · rw [show (setAdd p.busy w : List Nat) = p.busy ++ [w] from hadd] at hi
          rcases List.mem_append.1 hi with hb | hb
          · exact hp.fresh i (Or.inr hb)
          · simp at hb
            subst hb
            exact hp.fresh i (Or.inl (by rw [hf]; exact List.mem_cons_self i rest))
      · show rest.length + (setAdd p.busy w).length = p.workers.length
        rw [hadd]
        have hs := hp.sumEq
        rw [hf] at hs
        simp [List.length_cons, List.length_append] at hs ⊢
        omega
      · intro i
        exact hp.attrAbsent i
  | rel w =>
    simp only [applyOp] at h
    split at h
    case isFalse => simp at h
    case isTrue hw =>
    simp only [Option.some.injEq] at h
    subst h
    have hrel : releasePost p w = p := by
      unfold releasePost release getattrProcControlEvent
      rw [hp.attrAbsent w]
      rfl
    rw [hrel]
    exact hp
  | ctlSet w =>
    simp only [applyOp, Option.some.injEq] at h
    subst h
    refine ⟨hp.nodupFree, hp.nodupBusy, hp.disj, hp.fresh, hp.sumEq, ?_⟩
    intro i
    show (wsUpdate p.ws w (fun st => { st with ctl := true }) i).hasProcControlEventAttr
      = false
    unfold wsUpdate
    split
    · exact hp.attrAbsent i
    · exact hp.attrAbsent i
  | procExit w rc =>
    simp only [applyOp, Option.some.injEq] at h
    subst h
    refine ⟨hp.nodupFree, hp.nodupBusy, hp.disj, hp.fresh, hp.sumEq, ?_⟩
    intro i
    show (wsUpdate p.ws w
        (fun st => { st with proc := st.proc.map (fun _ => some rc) }) i).hasProcControlEventAttr
      = false
    unfold wsUpdate
    split
    · exact hp.attrAbsent i
    · exact hp.attrAbsent i

theorem inv_applyOps :
    ∀ (ops : List PoolOp) (p q : Pool), PoolInv p → applyOps p ops = some q → PoolInv q := by
  intro ops
  induction ops with
  | nil => intro p q hp h; simp [applyOps] at h; subst h; exact hp
  | cons op rest ih =>
    intro p q hp h
    unfold applyOps at h
    cases ha : applyOp p op with
    | none => rw [ha] at h; simp at h
    | some r =>
      rw [ha] at h
      exact ih r q (inv_applyOp hp ha) h

theorem drainErrTail_eq (k : Nat) (events : List (String × Option String)) :
    drainErrTail k events =
      (events.take k).filterMap (fun e =>
        match e.2 with
        | some l => if e.1 == "stderr" && !(l == "") then some (pyStrip l) else none
        | none => none) := by
  induction events generalizing k with
  | nil => cases k <;> simp [drainErrTail]
  | cons e rest ih =>
    cases k with
    | zero => simp [drainErrTail]
    | succ k =>
      obtain ⟨t, item⟩ := e
      cases item with
      | none => simp [drainErrTail, List.take_succ_cons, ih]
      | some l =>
        by_cases ht : t = "stderr"
        · subst ht
          by_cases hl2 : l = ""
          · subst hl2
            simp [drainErrTail, List.take_succ_cons, ih]
          · simp [drainErrTail, hl2, List.take_succ_cons, ih]
        · simp [drainErrTail, ht, List.take_succ_cons, ih]

/- ──────────────────────────────────────────────────────────────────────
   Claim theorems.
   ────────────────────────────────────────────────────────────────────── -/

/-- C1: in every state of the composed program reachable from `start()`
by any sequence of `acquire()` and `release()` calls (with workers dying
arbitrarily in between), `free` and `busy` are disjoint and
`|free| + |busy|` equals the configured worker count; after
`shutdown()`, `free` and `busy` are both empty and the capacity is 0.
The invariant survives `release()` for a reason the spec does not state:
every `release()` on a worker the pool constructs raises
`AttributeError` at its first expression (pool.py line 111 reads
`proc_control_event`, which `LlamaWorker` does not define) and so
mutates nothing before the exception propagates; the busy-set leak in
the text of the dead-worker branch sits behind that exception and is
unreachable in the composed program. -/
theorem pool_partition_invariant (n : Nat) (ops : List PoolOp) (p : Pool)
    (hreach : applyOps (startPool n) ops = some p) :
    (∀ i, i ∈ p.free → i ∉ p.busy) ∧
    p.free.length + p.busy.length = n ∧
    (shutdown p).1.free = [] ∧
    (shutdown p).1.busy = [] ∧
    (shutdown p).1.workers.length = 0 := by
  have hinv : PoolInv p := inv_applyOps ops (startPool n) p (inv_startPool n) hreach
  have hw : p.workers = List.range n := applyOps_workers ops (startPool n) p hreach
  refine ⟨hinv.disj, ?_, rfl, rfl, rfl⟩
  rw [hinv.sumEq, hw]
  exact List.length_range n

theorem pool_partition_invariant_witness :
    ∃ p : Pool,
      applyOps (startPool 2) [PoolOp.acq, PoolOp.procExit 0 7, PoolOp.rel 0, PoolOp.acq]
        = some p ∧
      ((∀ i, i ∈ p.free → i ∉ p.busy) ∧
       p.free.length + p.busy.length = 2 ∧
       (shutdown p).1.free = [] ∧
       (shutdown p).1.busy = [] ∧
       (shutdown p).1.workers.length = 0) :=
  ⟨_, rfl,
   pool_partition_invariant 2 [PoolOp.acq, PoolOp.procExit 0 7, PoolOp.rel 0, PoolOp.acq]
     _ rfl⟩

/-- C2: the claimed stop-and-replace behavior never happens in the
composed program.  Failing input: a pool of one real worker; `start()`;
`acquire()`; the worker's process exits; `release(w)`.  The call raises
`AttributeError` at pool.py line 111 — `LlamaWorker` defines
`_ctl_event`, not the `proc_control_event` the pool reads — before
stopping the worker, constructing any replacement or enqueueing
anything: the pool is left untouched, `free` stays empty (a subsequent
`acquire()` blocks forever) and `busy` still holds the dead worker.
The claim matches release's own docstring and the repository's
test_pool_respawn_dead_worker (which passes only because conftest.py
substitutes a double that does define the attribute), so the intent is
clear and the attribute name mismatch is the slip. -/
theorem release_raises_attribute_error :
    ∃ p : Pool,
      applyOps (startPool 1) [PoolOp.acq, PoolOp.procExit 0 3] = some p ∧
      (p.ws 0).proc = some (some 3) ∧
      release p 0 = .error attrErrMsg ∧
      releasePost p 0 = p ∧
      p.free = [] ∧
      p.busy = [0] ∧
      acquire (releasePost p 0) = none :=
  ⟨_, rfl, rfl, rfl, rfl, rfl, rfl, rfl⟩

/-- C3 counterexample: a `stop()` run whose graceful-interrupt step fails
with `TimeoutExpired` emits only the final "proceso detenido" info line —
there is no log record of the failed escalation step, so the claim's
"every failure in the escalation is logged" is false on this input. -/
theorem stop_escalation_failure_unlogged_cex :
    (LlamaWorkerM.stop ⟨"w1", some none, false, "You are a helpful assistant."⟩
        .timeoutExpired .ok).2 = [StopLogEvent.procStopped "w1"] ∧
    StopLogEvent.escalationFailure "w1" ∉
      (LlamaWorkerM.stop ⟨"w1", some none, false, "You are a helpful assistant."⟩
        .timeoutExpired .ok).2 :=
  ⟨rfl, by decide⟩

/-- C3 (amended): a second `stop()` on the same Worker produces no error,
no state change and no log output; within the exception space the
escalation can see, no exception escapes `stop()` and it always ends
with the process handle cleared to None; escalation failures are
silently caught and superseded by the next escalation step (they are
not logged); and a second `shutdown()` of the same pool is a no-op that
stops no worker. -/
theorem stop_idempotent_silent (w : LlamaWorkerM) (o1 o1' : InterruptOutcome)
    (o2 o2' : TerminateOutcome) (p : Pool) :
    ((w.stop o1 o2).1.proc = none) ∧
    ((w.stop o1 o2).1.stop o1' o2' = ((w.stop o1 o2).1, [])) ∧
    (StopLogEvent.escalationFailure w.id ∉ (w.stop o1 o2).2) ∧
    (shutdown (shutdown p).1 = ((shutdown p).1, [])) := by
  refine ⟨?_, ?_, ?_, rfl⟩
  · cases hw : w.proc with
    | none => simp [LlamaWorkerM.stop, hw]
    | some o => cases o1 <;> cases o2 <;> simp [LlamaWorkerM.stop, hw]
  · have h1 : (w.stop o1 o2).1.proc = none := by
      cases hw : w.proc with
      | none => simp [LlamaWorkerM.stop, hw]
      | some o => cases o1 <;> cases o2 <;> simp [LlamaWorkerM.stop, hw]
    rcases hpair : w.stop o1 o2 with ⟨w1, logs1⟩
    rw [hpair] at h1
    simp only at h1 ⊢
    simp [LlamaWorkerM.stop, h1]
  · cases hw : w.proc with
    | none => simp [LlamaWorkerM.stop, hw]
    | some o => cases o1 <;> cases o2 <;> simp [LlamaWorkerM.stop, hw]

/-- C4 counterexample: a reader run that is stopped concurrently — the
control event is already set when the read raises an I/O error — enqueues
no `ERROR_READER` marker at all, so the claim's unconditional "enqueues a
single error marker on an I/O error" is false on this input (the control
event is still set on exit). -/
theorem stream_reader_error_marker_suppressed_cex :
    _stream_reader "stderr" [] (.errorRaised "OSError(5)") true = ([], true) := rfl

/-- C4 (amended): one `_stream_reader` run enqueues `(tag, line)` (with
trailing newlines stripped) for every line read before end-of-stream,
enqueues `(tag, None)` exactly once if a read returned the EOF sentinel,
enqueues a single `ERROR_READER` marker if the run ended in an I/O error
and the control event was not already set when the error was caught (an
already-set event suppresses the marker), enqueues nothing extra when it
terminates because the stop signal was observed, and on every
termination path leaves the shared control event set. -/
theorem stream_reader_events_spec (tag : String) (reads : List String)
    (ending : ReadEnding) (ctlAtError : Bool) :
    _stream_reader tag reads ending ctlAtError =
      ((reads.takeWhile (fun r => !(r == ""))).map (fun r => (tag, some (rstripNl r))) ++
        (if reads.any (fun r => r == "") then [(tag, (none : Option String))]
         else
           match ending with
           | .stopObserved => []
           | .errorRaised m => if ctlAtError then [] else [(tag, some ("ERROR_READER: " ++ m))]),
       true) := by
  unfold _stream_reader
  rw [Prod.mk.injEq]
  refine ⟨?_, rfl⟩
  induction reads with
  | nil => cases ending <;> simp [readerEvents]
  | cons l rest ih =>
    by_cases hl : (l == "") = true
    · have hl' : l = "" := by simpa using hl
      subst hl'
      simp [readerEvents, List.takeWhile_cons, List.any_cons]
    · simp only [readerEvents, hl, Bool.false_eq_true, if_false, List.takeWhile_cons,
        Bool.not_false, List.any_cons, Bool.false_or, List.map_cons, List.cons_append, ih]
      simp [hl]

/-- C5 counterexample: for the prompt "hi" the worker writes
`system_prompt + "\n\nUser: hi" + linesep` to stdin, which differs from
the claimed bare `"hi" + linesep`. -/
theorem infer_writes_more_than_prompt_cex :
    ((LlamaWorkerM.mk "w1" (some none) false "You are a helpful assistant.").infer
        "hi" [] "\n").toOption.map (fun r => r.written)
      = some "You are a helpful assistant.\n\nUser: hi\n" ∧
    ("You are a helpful assistant.\n\nUser: hi\n" : String) ≠ "hi" ++ "\n" :=
  ⟨by rfl, by decide⟩

/-- C5 (amended): for every prompt, an `infer()` call on an operational
worker performs exactly one stdin write, consisting of the worker's
system prompt, the separator "\n\nUser: ", the whitespace-stripped
prompt, and one line terminator, flushed. -/
theorem infer_write_payload (w : LlamaWorkerM) (prompt : String)
    (incoming : List (String × Option String)) (linesep : String)
    (h : w.proc = some none) :
    ∃ r, w.infer prompt incoming linesep = .ok r ∧
      r.written = (w.systemPrompt ++ "\n\nUser: " ++ pyStrip prompt) ++ linesep := by
  have he : w.infer prompt incoming linesep =
      .ok ⟨(w.systemPrompt ++ "\n\nUser: " ++ pyStrip prompt) ++ linesep,
           (inferLoop prompt true incoming).1, { w with ctl := true }⟩ := by
    unfold LlamaWorkerM.infer
    rw [h]
  exact ⟨_, he, rfl⟩

theorem infer_write_payload_witness :
    (LlamaWorkerM.mk "w9" (some none) false "You are a helpful assistant.").proc
        = some none ∧
    ∃ r, (LlamaWorkerM.mk "w9" (some none) false
            "You are a helpful assistant.").infer "  hola  " [] "\n" = .ok r ∧
      r.written = ("You are a helpful assistant." ++ "\n\nUser: " ++ pyStrip "  hola  ") ++ "\n" :=
  ⟨rfl, infer_write_payload (LlamaWorkerM.mk "w9" (some none) false
    "You are a helpful assistant.") "  hola  " [] "\n" rfl⟩

/-- C6 counterexample: `_wait_ready` discards the stream tag
(`_, line = await self._queue.get()`), so a ready marker arriving on
stdout completes the ready-wait successfully, against the claim that
only the stderr channel is consulted. -/
theorem wait_ready_accepts_stdout_marker_cex :
    _wait_ready_alive [("stdout", some "sampling: test")] = .ready := by decide

/-- C6 (amended): while the process stays alive, the ready-wait completes
successfully precisely when a queue line containing one of the
READY_MARKERS substrings arrives — on either stream, the tag is ignored —
before any end-of-stream item; and when the process exits prematurely the
raised diagnostic is the premature-exit header followed by the last 40
stripped non-empty stderr lines among the first 200 drained queue items
(or "(sin stderr)" when there are none). -/
theorem wait_ready_spec :
    (∀ pre tag l rest,
        (∀ e, e ∈ pre → ∃ s, e.2 = some s ∧ containsMarker s = false) →
        containsMarker l = true →
        _wait_ready_alive (pre ++ (tag, some l) :: rest) = .ready) ∧
    (∀ events, _wait_ready_alive events = .ready →
        ∃ e, e ∈ events ∧ ∃ s, e.2 = some s ∧ containsMarker s = true) ∧
    (∀ wid rc events,
        prematureMsg wid rc events =
          "[" ++ wid ++ "] llama-cli terminó prematuramente (rc=" ++ toString rc ++ ").\n" ++
          (let tail := (events.take 200).filterMap (fun e =>
              match e.2 with
              | some l => if e.1 == "stderr" && !(l == "") then some (pyStrip l) else none
              | none => none)
           if tail.isEmpty then "(sin stderr)"
           else String.intercalate "\n" (tail.drop (tail.length - 40)))) := by
  refine ⟨?_, ?_, ?_⟩
  · intro pre tag l rest hpre hl
    induction pre with
    | nil => simp [_wait_ready_alive, hl]
    | cons e pre' ih =>
      obtain ⟨t, item⟩ := e
      obtain ⟨s, hs, hsm⟩ := hpre (t, item) (List.mem_cons_self _ _)
      simp only at hs
      subst hs
      simp only [List.cons_append, _wait_ready_alive, hsm, Bool.false_eq_true, if_false]
      exact ih (fun e he => hpre e (List.mem_cons_of_mem _ he))
  · intro events
    induction events with
    | nil => intro h; simp [_wait_ready_alive] at h
    | cons e rest ih =>
      obtain ⟨t, item⟩ := e
      cases item with
      | none => intro h; simp [_wait_ready_alive] at h
      | some l =>
        by_cases hm : containsMarker l = true
        · intro _
          exact ⟨(t, some l), List.mem_cons_self _ _, l, rfl, hm⟩
        · intro h
          simp only [_wait_ready_alive, hm, Bool.false_eq_true, if_false] at h
          obtain ⟨e, he, hrest⟩ := ih h
          exact ⟨e, List.mem_cons_of_mem _ he, hrest⟩
  · intro wid rc events
    unfold prematureMsg lastN
    rw [drainErrTail_eq]

theorem wait_ready_spec_witness :
    containsMarker "sampling: ok" = true ∧
    _wait_ready_alive [("stderr", some "llama_model_loader: loaded meta data"),
        ("stdout", some "sampling: ok")] = .ready ∧
    prematureMsg "w1" 1 [("stderr", some " err line "), ("stdout", some "noise")] =
      "[w1] llama-cli terminó prematuramente (rc=1).\nerr line" :=
  ⟨by decide,
   wait_ready_spec.1 [("stderr", some "llama_model_loader: loaded meta data")]
     "stdout" "sampling: ok" []
     (by
       intro e he
       simp only [List.mem_singleton] at he
       subst he
       exact ⟨"llama_model_loader: loaded meta data", rfl, by decide⟩)
     (by decide),
   by rfl⟩

/-- C7: compiling the schema `\x7b"type": "string", "enum": ["a", "b"]\x7d`
under the rule name `root` yields exactly the one rule
`root ::= "\"a\"" | "\"b\""` and nothing else. -/
theorem gbnf_enum_single_rule :
    _convert_schema "root" enumABSchema [] = [("root", "\"\\\"a\\\"\" | \"\\\"b\\\"\"")] ∧
    schema_to_gbnf enumABSchema = "root ::= \"\\\"a\\\"\" | \"\\\"b\\\"\"\n" := by
  constructor
  · simp [enumABSchema, _convert_schema, rulesContains, rulesSet, String.intercalate]
    rfl
  · simp [schema_to_gbnf, enumABSchema, _convert_schema, rulesContains, rulesSet,
      String.intercalate, String.join]
    rfl

/-- C8: the compiler is total over JSON-Schema-like trees (the embedding
is a total structurally recursive function, so every input terminates
with a grammar string and no exception): every conversion call defines
its rule, and a subschema matching none of the handled shapes (object,
string, number, boolean, oneOf, $ref) is mapped to the `null` rule
rather than failing. -/
theorem gbnf_total_null_fallback (name : String) (s : SchemaV) (rules : Rules)
    (h : rulesContains rules name = false) :
    rulesContains (_convert_schema name s rules) name = true ∧
    (unhandledSchema s = true →
      rulesLookup (_convert_schema name s rules) name = some "null") := by
  obtain ⟨type, props, req, enum, oneOf, ref⟩ := s
  constructor
  · unfold _convert_schema
    simp only [h, Bool.false_eq_true, if_false]
    repeat' first
      | apply rulesContains_rulesSet_self
      | split
  · intro hu
    unfold unhandledSchema at hu
    simp only [Bool.and_eq_true, Bool.not_eq_true', Bool.or_eq_false_iff,
      Option.isNone_iff_eq_none] at hu
    obtain ⟨⟨⟨⟨⟨h1, h2⟩, h3⟩, h4⟩, ho⟩, hr⟩ := hu
    unfold _convert_schema
    simp only [h, h1, h2, h3, h4, ho, hr, Bool.false_eq_true, if_false]
    apply rulesLookup_rulesSet_self

theorem gbnf_total_null_fallback_witness :
    rulesContains [] "root" = false ∧
    unhandledSchema (SchemaV.mk (some "array") [] [] none none none) = true ∧
    (rulesContains
        (_convert_schema "root" (SchemaV.mk (some "array") [] [] none none none) [])
        "root" = true ∧
     (unhandledSchema (SchemaV.mk (some "array") [] [] none none none) = true →
       rulesLookup
         (_convert_schema "root" (SchemaV.mk (some "array") [] [] none none none) [])
         "root" = some "null")) :=
  ⟨rfl, by decide,
   gbnf_total_null_fallback "root" (SchemaV.mk (some "array") [] [] none none none) [] rfl⟩

/-- C9 counterexample: a worker whose process is alive but whose control
signal is set does not raise from `infer()` — the call succeeds because
the liveness check reads only `self.proc`/`poll()` and the control event
is cleared, not consulted; this falsifies the claim that a set control
signal at call time produces the "not operational" error. -/
theorem infer_ok_despite_ctl_set_cex :
    exceptOk ((LlamaWorkerM.mk "w1" (some none) true "You are a helpful assistant.").infer
      "hola" [] "\n") = true := rfl

/-- C9 (amended): `infer()` raises the "worker no operativo" error — and
then yields no fragments and performs no write — exactly when the worker
has no process handle (before `spawn()`, or after `stop()` cleared it) or
its process has exited; the control signal is cleared at the start of the
call and plays no part in the check. -/
theorem infer_error_iff_no_live_proc (w : LlamaWorkerM) (prompt : String)
    (incoming : List (String × Option String)) (linesep : String) :
    (w.infer prompt incoming linesep
        = .error ("[" ++ w.id ++ "] worker no operativo"))
      ↔ w.proc ≠ some none := by
  cases hp : w.proc with
  | none => simp [LlamaWorkerM.infer, hp]
  | some o =>
    cases o with
    | none => simp [LlamaWorkerM.infer, hp]
    | some rc => simp [LlamaWorkerM.infer, hp]

/-- C10: `release()` never modifies the pool's `_workers` list — neither
as the composed program runs it (the `AttributeError` propagates before
any mutation, leaving the pool untouched: `releasePost`) nor in the text
of its post-condition path for any value the health condition could take
(the replacement goes only to the `free` queue: `releaseBody`) — so in
every reachable state the list still holds exactly the workers created
at pool construction, the `size` property still counts them, and
`shutdown()` iterates and stops exactly those original workers, never a
replacement (everything it stops has id < n). -/
theorem release_shutdown_frame
    (n : Nat) (ops : List PoolOp) (p : Pool)
    (hreach : applyOps (startPool n) ops = some p) :
    p.workers = List.range n ∧
    (∀ w, (releasePost p w).workers = p.workers) ∧
    (∀ w ctl, (releaseBody p w ctl).workers = p.workers) ∧
    (shutdown p).2 = List.range n ∧
    (∀ i, i ∈ (shutdown p).2 → i < n) := by
  have hw : p.workers = List.range n := applyOps_workers ops (startPool n) p hreach
  refine ⟨hw, fun w => releasePost_workers p w,
    fun w ctl => releaseBody_workers p w ctl, hw, ?_⟩
  intro i hi
  show i < n
  have hmem : i ∈ p.workers := hi
  rw [hw] at hmem
  exact List.mem_range.1 hmem

theorem release_shutdown_frame_witness :
    ∃ p : Pool,
      applyOps (startPool 1) [PoolOp.acq, PoolOp.ctlSet 0, PoolOp.rel 0] = some p ∧
      (p.workers = List.range 1 ∧
       (∀ w, (releasePost p w).workers = p.workers) ∧
       (∀ w ctl, (releaseBody p w ctl).workers = p.workers) ∧
       (shutdown p).2 = List.range 1 ∧
       (∀ i, i ∈ (shutdown p).2 → i < 1)) :=
  ⟨_, rfl, release_shutdown_frame 1 [PoolOp.acq, PoolOp.ctlSet 0, PoolOp.rel 0] _ rfl⟩

end LmServ
